import Mathlib

/-!
Shallow embedding of the simulation core of the curve-chaos game
(src/powerup.ts, src/main.ts, src/player.ts) and proofs about it.

Modelling conventions:
* JS numbers are modelled as rationals (`ℚ`); machine floats carry no
  claim-relevant rounding behaviour here.
* `Math.cos` / `Math.sin` / `Math.PI` are modelled as parameters
  (`cosF`, `sinF`, `piQ`), since the claims never depend on their values.
* `Math.random()` draws are modelled as explicit oracle inputs
  (a `Bool` for the Bernoulli hole trial, rationals in `[0,1]` for
  teleport coordinates).
* `performance.now()` instants are explicit `now` parameters.
* A player's `activeEffects` JS object is modelled as a function
  `PowerupType → Option ℚ` (absence of a key = `none`).  JavaScript
  truthiness of a stored expiry (`if (player.activeEffects.X)`) is
  modelled by `effectTruthy`.
* The trail `path` is a `List (Option Pt)`; `none` is the `null`
  gap marker pushed by the hole mechanic.
-/

namespace CurveChaos

/-- Powerup kinds, from `PowerupType` in powerup.ts. -/
inductive PowerupType where
  | SPEED_BOOST
  | SLOW_OTHERS
  | THIN_TRAIL
  | INVINCIBLE
  | REVERSE_CONTROLS
  | GHOST_MODE
  | THICK_TRAIL
  | CLEAR_OWN_TRAIL
  | RANDOM_TELEPORT
  deriving DecidableEq, Repr

/-- A 2-D point, the `{x, y}` records stored in a player's `path`. -/
structure Pt where
  x : ℚ
  y : ℚ
  deriving DecidableEq, Repr

/-- The `activeEffects` object: effect kind to absolute expiry timestamp. -/
abbrev EffectMap := PowerupType → Option ℚ

/-- The `Player` interface from player.ts. -/
structure Player where
  id : ℕ
  name : String
  x : ℚ
  y : ℚ
  angle : ℚ
  speed : ℚ
  color : String
  isTurningLeft : Bool
  isTurningRight : Bool
  turnSpeed : ℚ
  radius : ℚ
  path : List (Option Pt)
  isAlive : Bool
  score : ℕ
  isMakingHole : Bool
  holeTimer : ℤ
  activeEffects : EffectMap

/-- The `Powerup` interface from powerup.ts. -/
structure Powerup where
  id : ℕ
  type : PowerupType
  x : ℚ
  y : ℚ
  radius : ℚ
  createdAt : ℚ
  deriving DecidableEq, Repr

/-- The `GameState` union type from main.ts. -/
inductive GameState where
  | WaitingToStart
  | Running
  | Paused
  | GameOver
  | SessionOver
  deriving DecidableEq, Repr

/-- Per-player control mapping entry (`PlayerControls` in player.ts). -/
structure Controls where
  left : String
  right : String

/-- JavaScript truthiness of `player.activeEffects[t]`: the key is present
and its stored number is nonzero.  Every guard in the source reads an
effect through exactly this test (`if (player.activeEffects.X)`). -/
def effectTruthy (eff : EffectMap) (t : PowerupType) : Bool :=
  match eff t with
  | some v => decide (v ≠ 0)
  | none => false

/-- `player.activeEffects[t] = v`: JS object key assignment. -/
def effSet (eff : EffectMap) (t : PowerupType) (v : ℚ) : EffectMap :=
  fun e => if e = t then some v else eff e

/-- `createPlayer` from player.ts: initial state of a player; `path`
starts as the one-element list `[{x, y}]`. -/
def createPlayer (id : ℕ) (name : String) (x y angle : ℚ) (color : String)
    (initialScore : ℕ) : Player :=
  { id := id
    name := name
    x := x
    y := y
    angle := angle
    speed := 2
    color := color
    isTurningLeft := false
    isTurningRight := false
    turnSpeed := 0  -- Math.PI / 60 in the source; value is claim-irrelevant
    radius := 5
    path := [some ⟨x, y⟩]
    isAlive := true
    score := initialScore
    isMakingHole := false
    holeTimer := 0
    activeEffects := fun _ => none }

/-- Truncation toward zero, as JavaScript `%` truncates its quotient. -/
def ratTrunc (q : ℚ) : ℤ :=
  if 0 ≤ q then ⌊q⌋ else ⌈q⌉

/-- JavaScript remainder `a % b` for finite operands with `b ≠ 0`. -/
def jsMod (a b : ℚ) : ℚ :=
  a - b * (ratTrunc (a / b) : ℚ)

/-- The lazy per-step expiry sweep at the top of `updatePlayer`:
`if (expiryTime && now >= expiryTime) delete player.activeEffects[t]`. -/
def pruneExpiredEffects (now : ℚ) (eff : EffectMap) : EffectMap :=
  fun e =>
    match eff e with
    | some v => if v ≠ 0 ∧ v ≤ now then none else some v
    | none => none

/-- Trail append at the end of `updatePlayer`: push the new head position,
or while making a hole push a `null` gap marker unless the previous
entry is already one (`path.length === 0 || path[len-1] !== null`). -/
def pushPathEntry (path : List (Option Pt)) (makingHole : Bool) (pt : Pt) :
    List (Option Pt) :=
  if !makingHole then path ++ [some pt]
  else if path.length = 0 ∨ path.getLast? ≠ some none then path ++ [none]
  else path

/-- `updatePlayer` from player.ts.  `randStart` models the Bernoulli draw
`Math.random() < HOLE_CHANCE_PER_UPDATE`; `cosF`, `sinF`, `piQ` model
`Math.cos`, `Math.sin`, `Math.PI`; `controls` is the module-level
`playerControls` map; `keyStates` the held-key set. -/
def updatePlayer (controls : ℕ → Option Controls) (piQ : ℚ)
    (cosF sinF : ℚ → ℚ) (now : ℚ) (randStart : Bool)
    (p : Player) (keyStates : String → Bool) : Player :=
  if p.isAlive then
    let effects := pruneExpiredEffects now p.activeEffects
    -- hole timer: decrement, clear isMakingHole at zero
    let holeT := if p.isMakingHole then p.holeTimer - 1 else p.holeTimer
    let mkB := if p.isMakingHole ∧ holeT ≤ 0 then false else p.isMakingHole
    -- random hole start (HOLE_DURATION_FRAMES = 11)
    let mkC := if ¬mkB ∧ randStart then true else mkB
    let holeT2 := if ¬mkB ∧ randStart then (11 : ℤ) else holeT
    let ctrl := controls p.id
    let reversed := effectTruthy effects PowerupType.REVERSE_CONTROLS
    let effLeft := if reversed then Option.map Controls.right ctrl
                   else Option.map Controls.left ctrl
    let effRight := if reversed then Option.map Controls.left ctrl
                    else Option.map Controls.right ctrl
    let tLeft := if ctrl.isSome then keyStates (Option.getD effLeft (r""))
                 else p.isTurningLeft
    let tRight := if ctrl.isSome then keyStates (Option.getD effRight (r""))
                  else p.isTurningRight
    let ang0 := if tLeft then p.angle - p.turnSpeed else p.angle
    let ang1 := if tRight then ang0 + p.turnSpeed else ang0
    let ang := jsMod (ang1 + piQ * 2) (piQ * 2)
    let spd0 := if effectTruthy effects PowerupType.SPEED_BOOST
                then p.speed * (3 / 2) else p.speed
    let spd := if effectTruthy effects PowerupType.SLOW_OTHERS
               then spd0 * (7 / 10) else spd0
    let nx := p.x + cosF ang * spd
    let ny := p.y + sinF ang * spd
    { p with
      activeEffects := effects
      isMakingHole := mkC
      holeTimer := holeT2
      isTurningLeft := tLeft
      isTurningRight := tRight
      angle := ang
      x := nx
      y := ny
      path := pushPathEntry p.path mkC ⟨nx, ny⟩ }
  else p

/-- Circle-circle trail test of `player`'s head against entry `i` of
`q.path`, ignoring gap markers (the inner loop body of `checkCollisions`
without the self-exclusion guard). -/
def rawPointHit (p : Player) (q : Player) (i : ℕ) : Bool :=
  match q.path.getD i none with
  | none => false
  | some pt =>
    let dx := p.x - pt.x
    let dy := p.y - pt.y
    if dx * dx + dy * dy < (p.radius + q.radius) * (p.radius + q.radius)
    then true else false

/-- One trail-point test with the self-exclusion window (`skipSegments = 20`):
when testing against one's own path, indices `i >= path.length - 20`
are skipped. -/
def pointHit (p : Player) (q : Player) (i : ℕ) : Bool :=
  if p.id = q.id ∧ q.path.length ≤ i + 20 then false
  else rawPointHit p q i

/-- Full scan of `q.path` for a trail collision of `p`'s head. -/
def trailHit (p : Player) (q : Player) : Bool :=
  (List.range q.path.length).any (pointHit p q)

/-- `checkCollisions` from player.ts: invincibility sources first, then
the boundary test, then trail tests against every player's path. -/
def checkCollisions (p : Player) (playableWidth canvasHeight : ℚ)
    (allPlayers : List Player) : Bool :=
  if p.isMakingHole || effectTruthy p.activeEffects PowerupType.INVINCIBLE then
    false
  else if effectTruthy p.activeEffects PowerupType.GHOST_MODE then
    false
  else if p.x - p.radius < 0 ∨ playableWidth < p.x + p.radius
       ∨ p.y - p.radius < 0 ∨ canvasHeight < p.y + p.radius then
    true
  else
    allPlayers.any (fun q => trailHit p q)

/-- `MIN_TURN_RADIUS = 3 / (Math.PI / 60)` from main.ts. -/
def MIN_TURN_RADIUS (piQ : ℚ) : ℚ := 3 / (piQ / 60)

/-- `SAFE_ZONE_BUFFER = 2 * MIN_TURN_RADIUS` from main.ts. -/
def SAFE_ZONE_BUFFER (piQ : ℚ) : ℚ := 2 * MIN_TURN_RADIUS piQ

/-- Replace the element at index `i` (in-place object mutation of one
array element, as the source does through a reference). -/
def modifyAt (l : List α) (i : ℕ) (f : α → α) : List α :=
  match l, i with
  | [], _ => []
  | a :: t, 0 => f a :: t
  | a :: t, Nat.succ j => a :: modifyAt t j f

/-- The fresh random position computed by the `RANDOM_TELEPORT` branch of
`applyPowerupEffect` (same safe-zone algorithm as round-start placement,
including the degenerate-range clamp).  `rx`, `ry` model the two
`Math.random()` draws. -/
def teleportTarget (piQ cw ch rx ry : ℚ) : Pt :=
  let playableWidth := cw - 250 - 2 * 15
  let minX0 := SAFE_ZONE_BUFFER piQ
  let maxX0 := playableWidth - SAFE_ZONE_BUFFER piQ
  let minY0 := SAFE_ZONE_BUFFER piQ
  let maxY0 := ch - SAFE_ZONE_BUFFER piQ
  if maxX0 ≤ minX0 ∨ maxY0 ≤ minY0 then
    let minX := min minX0 (playableWidth / 2)
    let maxX := max maxX0 (playableWidth / 2)
    let minY := min minY0 (ch / 2)
    let maxY := max maxY0 (ch / 2)
    ⟨rx * (maxX - minX) + minX, ry * (maxY - minY) + minY⟩
  else
    ⟨rx * (maxX0 - minX0) + minX0, ry * (maxY0 - minY0) + minY0⟩

/-- `applyPowerupEffect` from main.ts, acting on the player list with the
collector at index `idx`.  Timed self effects store `now + duration`;
`SLOW_OTHERS` stamps every other living player; `CLEAR_OWN_TRAIL`
replaces the path by its last point (or the current position when that
entry is absent or a gap marker); `RANDOM_TELEPORT` moves the player and
overwrites the last path entry. -/
def applyPowerupEffect (piQ now cw ch rx ry : ℚ) (w : Powerup) (idx : ℕ)
    (players : List Player) : List Player :=
  match w.type with
  | PowerupType.SPEED_BOOST =>
    modifyAt players idx (fun p =>
      { p with activeEffects := effSet p.activeEffects PowerupType.SPEED_BOOST (now + 5000) })
  | PowerupType.INVINCIBLE =>
    modifyAt players idx (fun p =>
      { p with activeEffects := effSet p.activeEffects PowerupType.INVINCIBLE (now + 3000) })
  | PowerupType.THIN_TRAIL =>
    modifyAt players idx (fun p =>
      { p with activeEffects := effSet p.activeEffects PowerupType.THIN_TRAIL (now + 10000) })
  | PowerupType.REVERSE_CONTROLS =>
    modifyAt players idx (fun p =>
      { p with activeEffects := effSet p.activeEffects PowerupType.REVERSE_CONTROLS (now + 5000) })
  | PowerupType.SLOW_OTHERS =>
    match players.get? idx with
    | none => players
    | some collector =>
      players.map (fun q =>
        if q.id ≠ collector.id ∧ q.isAlive = true then
          { q with activeEffects := effSet q.activeEffects PowerupType.SLOW_OTHERS (now + 5000) }
        else q)
  | PowerupType.GHOST_MODE =>
    modifyAt players idx (fun p =>
      { p with activeEffects := effSet p.activeEffects PowerupType.GHOST_MODE (now + 4000) })
  | PowerupType.THICK_TRAIL =>
    modifyAt players idx (fun p =>
      { p with activeEffects := effSet p.activeEffects PowerupType.THICK_TRAIL (now + 8000) })
  | PowerupType.CLEAR_OWN_TRAIL =>
    modifyAt players idx (fun p =>
      { p with path := [some (match p.path.getLast? with
                              | some (some pt) => pt
                              | _ => ⟨p.x, p.y⟩)] })
  | PowerupType.RANDOM_TELEPORT =>
    modifyAt players idx (fun p =>
      let target := teleportTarget piQ cw ch rx ry
      { p with
        x := target.x
        y := target.y
        path := p.path.set (p.path.length - 1) (some target) })

/-- Resume-time effect shift for one player (`expiryTime + pausedDuration`
for every truthy stored expiry), from the space-bar handler in main.ts. -/
def adjustEffectsForPause (pausedDuration : ℚ) (eff : EffectMap) : EffectMap :=
  fun e =>
    match eff e with
    | some v => if v ≠ 0 then some (v + pausedDuration) else some v
    | none => none

/-- Shift all of one player's outstanding effect expiries by the pause. -/
def adjustPlayerForPause (pausedDuration : ℚ) (p : Player) : Player :=
  { p with activeEffects := adjustEffectsForPause pausedDuration p.activeEffects }

/-- Shift one active powerup's creation timestamp by the pause. -/
def adjustPowerupForPause (pausedDuration : ℚ) (w : Powerup) : Powerup :=
  { w with createdAt := w.createdAt + pausedDuration }

/-- The Paused → Running transition of `handleKeyDown`: with pause start
`t0` and resume instant `t1`, add `pausedDuration = t1 - t0` to every
player's effect expiries, every powerup's `createdAt`, and the global
`lastPowerupSpawnTime`. -/
def resumeFromPause (t0 t1 : ℚ) (players : List Player)
    (powerups : List Powerup) (lastSpawn : ℚ) :
    List Player × List Powerup × ℚ :=
  let pausedDuration := t1 - t0
  (players.map (adjustPlayerForPause pausedDuration),
   powerups.map (adjustPowerupForPause pausedDuration),
   lastSpawn + pausedDuration)

/-- `pointsAwarded[index] ?? 0` with `pointsAwarded = [3, 2, 1, 0]`. -/
def pointsFor (i : ℕ) : ℕ := ([3, 2, 1, 0] : List ℕ).getD i 0

/-- `currentPlayers.find(p => p.id === playerId)` followed by
`player.score += points`: award `pts` to the first player whose id
matches, no-op if none matches. -/
def addScoreToFirst (pid : ℕ) (pts : ℕ) : List Player → List Player
  | [] => []
  | p :: ps =>
    if p.id = pid then { p with score := p.score + pts } :: ps
    else p :: addScoreToFirst pid pts ps

/-- The `finalRanking.forEach((playerId, index) => ...)` scoring loop. -/
def awardPoints (players : List Player) (ranking : List ℕ) : List Player :=
  ranking.enum.foldl (fun acc pr => addScoreToFirst pr.2 (pointsFor pr.1) acc) players

/-- `scores.sort((a, b) => b - a)`: the score values in descending order. -/
def sortScoresDesc (l : List ℕ) : List ℕ := l.insertionSort (· ≥ ·)

/-- `scores[0] ?? 0` over the descending sort. -/
def highestScore (l : List ℕ) : ℕ := (sortScoresDesc l).getD 0 0

/-- `scores[1] ?? 0` over the descending sort. -/
def secondHighestScore (l : List ℕ) : ℕ := (sortScoresDesc l).getD 1 0

/-- The session win test from the round-end block of `gameLoop`
(`WIN_SCORE = 30`, `WIN_DIFFERENCE = 2`): `SessionOver` iff
`highest >= 30 && (scores.length < 2 || highest >= second + 2)`,
otherwise the round-over state `GameOver`. -/
def winCheck (scoreValues : List ℕ) : GameState :=
  if 30 ≤ highestScore scoreValues ∧
      ((sortScoresDesc scoreValues).length < 2 ∨
        secondHighestScore scoreValues + 2 ≤ highestScore scoreValues)
  then GameState.SessionOver
  else GameState.GameOver

/-- The largest value in a list of scores (spec reading of "highest
cumulative score"; scores are naturals so the empty fold is 0). -/
def maxScore (l : List ℕ) : ℕ := l.foldr max 0

/-- The second-highest value: the largest after removing one occurrence
of the maximum (spec reading of "second-highest score"). -/
def secondMaxScore (l : List ℕ) : ℕ := maxScore (l.erase (maxScore l))

/-- Outcome of the round-end block of `gameLoop`. -/
structure RoundEndResult where
  players : List Player
  lastScores : List (ℕ × ℕ)
  state : GameState
  ranking : List ℕ

/-- The round-end block of `gameLoop` (main.ts): final ranking = living
player ids then `eliminationOrder` reversed; rank-based points; the
`lastScores` snapshot; the session-win check. -/
def roundEndStep (players : List Player) (elimOrder : List ℕ) : RoundEndResult :=
  let livingPlayerIds := (players.filter (fun p => p.isAlive)).map (fun p => p.id)
  let finalRanking := livingPlayerIds ++ elimOrder.reverse
  let players' := awardPoints players finalRanking
  let lastScores := players'.map (fun p => (p.id, p.score))
  { players := players'
    lastScores := lastScores
    state := winCheck (lastScores.map Prod.snd)
    ranking := finalRanking }

/-- The guarded round-end detection:
`if (livingPlayersCount <= 1 && currentPlayers.length > 1)`. -/
def roundEndCheck (players : List Player) (elimOrder : List ℕ) :
    Option RoundEndResult :=
  if (players.filter (fun p => p.isAlive)).length ≤ 1 ∧ 1 < players.length
  then some (roundEndStep players elimOrder)
  else none

/-- No two consecutive gap markers in a trail. -/
def noConsecGaps : List (Option Pt) → Bool
  | [] => true
  | [_] => true
  | a :: b :: t => !(a.isNone && b.isNone) && noConsecGaps (b :: t)

/-- Total of all players' cumulative scores. -/
def totalScore (players : List Player) : ℕ :=
  (players.map (fun p => p.score)).sum

/-- Per-player oracle inputs consumed by one `updatePlayer` call. -/
structure UpdOracle where
  now : ℚ
  randStart : Bool

/-- Oracle inputs consumed by one `applyPowerupEffect` call. -/
structure EffOracle where
  now : ℚ
  rx : ℚ
  ry : ℚ

/-- Ambient inputs of one `gameLoop` update pass. -/
structure StepCfg where
  controls : ℕ → Option Controls
  piQ : ℚ
  cosF : ℚ → ℚ
  sinF : ℚ → ℚ
  keyStates : String → Bool
  canvasWidth : ℚ
  canvasHeight : ℚ
  isArcade : Bool
  updOracle : ℕ → UpdOracle
  effOracle : ℕ → ℕ → EffOracle

/-- `playableWidth = canvasWidth - leaderboardWidth - 2 * padding`. -/
def playableWidthOf (cfg : StepCfg) : ℚ := cfg.canvasWidth - 250 - 2 * 15

/-- Mutable state threaded through the per-frame player loop. -/
structure LoopState where
  players : List Player
  elim : List ℕ
  collected : List ℕ
  log : List (ℕ × ℕ)

/-- One iteration of the powerup-collection inner loop of `gameLoop` for
the player at index `pIdx`: skip a powerup already in the per-step
collected set (`collectedPowerupIds.has`), otherwise on head overlap
record its id and apply the effect at once.  `log` records each
`applyPowerupEffect` invocation as (collector id, powerup id). -/
def collectStep (cfg : StepCfg) (pIdx : ℕ) (st : LoopState)
    (wpr : ℕ × Powerup) : LoopState :=
  if st.collected.contains wpr.2.id then st
  else
    match st.players.get? pIdx with
    | none => st
    | some pl =>
      if (pl.x - wpr.2.x) * (pl.x - wpr.2.x) + (pl.y - wpr.2.y) * (pl.y - wpr.2.y) <
          (pl.radius + wpr.2.radius) * (pl.radius + wpr.2.radius) then
        { players := applyPowerupEffect cfg.piQ (cfg.effOracle pIdx wpr.1).now
            cfg.canvasWidth cfg.canvasHeight (cfg.effOracle pIdx wpr.1).rx
            (cfg.effOracle pIdx wpr.1).ry wpr.2 pIdx st.players
          elim := st.elim
          collected := wpr.2.id :: st.collected
          log := st.log ++ [(pl.id, wpr.2.id)] }
      else st

/-- The whole `for (const powerup of activePowerups)` collection loop. -/
def collectLoop (cfg : StepCfg) (pIdx : ℕ) (powerups : List Powerup)
    (st : LoopState) : LoopState :=
  powerups.enum.foldl (collectStep cfg pIdx) st

/-- One iteration of the `for (const player of currentPlayers)` loop of
`gameLoop`: update the player, then for a living player run the
collision check (death appends to `eliminationOrder`) and otherwise, in
Arcade mode, the powerup-collection loop. -/
def playerStep (cfg : StepCfg) (powerups : List Powerup)
    (st : LoopState) (pIdx : ℕ) : LoopState :=
  match st.players.get? pIdx with
  | none => st
  | some p0 =>
    let o := cfg.updOracle pIdx
    let p1 := updatePlayer cfg.controls cfg.piQ cfg.cosF cfg.sinF
      o.now o.randStart p0 cfg.keyStates
    let players1 := st.players.set pIdx p1
    if p1.isAlive then
      if checkCollisions p1 (playableWidthOf cfg) cfg.canvasHeight players1 then
        { st with
          players := players1.set pIdx { p1 with isAlive := false }
          elim := st.elim ++ [p1.id] }
      else if cfg.isArcade then
        collectLoop cfg pIdx powerups { st with players := players1 }
      else { st with players := players1 }
    else { st with players := players1 }

/-- The whole update pass of one `gameLoop` frame over all players,
followed by the removal of collected powerups
(`activePowerups.filter(w => !collectedPowerupIds.has(w.id))`). -/
def runUpdateLoop (cfg : StepCfg) (players0 : List Player) (elim0 : List ℕ)
    (powerups : List Powerup) : LoopState × List Powerup :=
  let st := (List.range players0.length).foldl (playerStep cfg powerups)
    { players := players0, elim := elim0, collected := [], log := [] }
  (st, powerups.filter (fun w => !st.collected.contains w.id))

/-- A dead player, for the dead-player no-op. -/
def demoDead : Player :=
  { createPlayer 1 (r"Ace") 100 100 0 (r"red") 0 with isAlive := false }

/-- A player holding an INVINCIBLE effect stored with expiry 9000. -/
def demoInvincible : Player :=
  { createPlayer 2 (r"Bolt") 50 50 0 (r"cyan") 0 with
    activeEffects := effSet (fun _ => none) PowerupType.INVINCIBLE 9000 }

/-- A player holding a SPEED_BOOST expiring at 25000 (5000 ms remaining
at a pause starting at 20000). -/
def demoBoosted : Player :=
  { createPlayer 3 (r"Comet") 10 10 0 (r"gold") 0 with
    activeEffects := effSet (fun _ => none) PowerupType.SPEED_BOOST 25000 }

/-- Concrete four-player round for the ranking example: player 3
survives, players 2, 4, 1 were eliminated in that order. -/
def demoRoundPlayers : List Player :=
  [ { createPlayer 1 (r"Ace") 0 0 0 (r"red") 0 with isAlive := false },
    { createPlayer 2 (r"Bolt") 0 0 0 (r"lime") 0 with isAlive := false },
    createPlayer 3 (r"Comet") 0 0 0 (r"magenta") 0,
    { createPlayer 4 (r"Duke") 0 0 0 (r"cyan") 0 with isAlive := false } ]

/-- A player currently in the middle of a hole episode whose trail
already ends in a gap marker. -/
def demoHoleMaker : Player :=
  { createPlayer 6 (r"Flash") 200 200 0 (r"orange") 0 with
    isMakingHole := true
    holeTimer := 5
    path := [some ⟨200, 200⟩, none] }

/-- A CLEAR_OWN_TRAIL pickup. -/
def demoClearPw : Powerup :=
  { id := 7, type := PowerupType.CLEAR_OWN_TRAIL, x := 0, y := 0,
    radius := 10, createdAt := 0 }

/-- The result of `demoBoosted` collecting `demoClearPw`: path collapsed
to its last point. -/
def demoCleared : Player :=
  { demoBoosted with path := [some ⟨10, 10⟩] }

/-- Invariant of the per-step collection bookkeeping: logged powerup ids
are pairwise distinct and every one of them is in the collected set. -/
def LogInv (st : LoopState) : Prop :=
  (st.log.map Prod.snd).Nodup ∧ ∀ x ∈ st.log.map Prod.snd, x ∈ st.collected

/-- Ambient inputs for the concrete two-players-one-powerup frame:
Arcade mode, stationary trig oracles, no keys held, no hole starts. -/
def demoCfg : StepCfg :=
  { controls := fun _ => none
    piQ := 0
    cosF := fun _ => 0
    sinF := fun _ => 0
    keyStates := fun _ => false
    canvasWidth := 1000
    canvasHeight := 1000
    isArcade := true
    updOracle := fun _ => { now := 0, randStart := false }
    effOracle := fun _ _ => { now := 0, rx := 0, ry := 0 } }

/-- First of two living players whose heads overlap the same powerup. -/
def demoP1 : Player := createPlayer 1 (r"Ace") 100 100 0 (r"red") 0

/-- Second of two living players whose heads overlap the same powerup. -/
def demoP2 : Player := createPlayer 2 (r"Bolt") 110 100 0 (r"lime") 0

/-- The contested SPEED_BOOST pickup, overlapping both demo heads. -/
def demoContested : Powerup :=
  { id := 5, type := PowerupType.SPEED_BOOST, x := 105, y := 100,
    radius := 10, createdAt := 0 }

theorem noConsecGaps_append_some (l : List (Option Pt)) (pt : Pt)
    (h : noConsecGaps l = true) : noConsecGaps (l ++ [some pt]) = true := by
  induction l with
  | nil => rfl
  | cons a t ih =>
    cases t with
    | nil => cases a <;> simp [noConsecGaps]
    | cons b t2 =>
      simp only [noConsecGaps, Bool.and_eq_true] at h
      have h2 := ih h.2
      simp only [List.cons_append] at h2 ⊢
      simp only [noConsecGaps, Bool.and_eq_true] at h2 ⊢
      exact ⟨h.1, h2⟩

theorem noConsecGaps_append_none (l : List (Option Pt))
    (h : noConsecGaps l = true) (hl : l.getLast? ≠ some none) :
    noConsecGaps (l ++ [none]) = true := by
  induction l with
  | nil => rfl
  | cons a t ih =>
    cases t with
    | nil =>
      cases a with
      | none => simp [List.getLast?] at hl
      | some pt => simp [noConsecGaps]
    | cons b t2 =>
      have hl2 : (b :: t2).getLast? ≠ some none := by
        simpa [List.getLast?_cons_cons] using hl
      simp only [noConsecGaps, Bool.and_eq_true] at h
      have h2 := ih h.2 hl2
      simp only [List.cons_append] at h2 ⊢
      simp only [noConsecGaps, Bool.and_eq_true] at h2 ⊢
      exact ⟨h.1, h2⟩

theorem pushPathEntry_noConsecGaps (l : List (Option Pt)) (mk : Bool) (pt : Pt)
    (h : noConsecGaps l = true) : noConsecGaps (pushPathEntry l mk pt) = true := by
  unfold pushPathEntry
  split
  · exact noConsecGaps_append_some l pt h
  · split
    · rename_i hc
      rcases hc with hc | hc
      · have he : l = [] := List.length_eq_zero.mp hc
        subst he; rfl
      · exact noConsecGaps_append_none l h hc
    · exact h

theorem pushPathEntry_ne_nil (l : List (Option Pt)) (mk : Bool) (pt : Pt)
    (h : l ≠ []) : pushPathEntry l mk pt ≠ [] := by
  unfold pushPathEntry
  split
  · simp
  · split
    · simp
    · exact h

theorem modifyAt_forall {α : Type} {P : α → Prop} (l : List α) (i : ℕ)
    (f : α → α) (hf : ∀ a, P a → P (f a)) (hl : ∀ a ∈ l, P a) :
    ∀ b ∈ modifyAt l i f, P b := by
  induction l generalizing i with
  | nil => intro b hb; simp [modifyAt] at hb
  | cons a t ih =>
    intro b hb
    cases i with
    | zero =>
      simp only [modifyAt, List.mem_cons] at hb
      rcases hb with hb | hb
      · exact hb ▸ hf a (hl a (List.mem_cons_self a t))
      · exact hl b (List.mem_cons_of_mem a hb)
    | succ j =>
      simp only [modifyAt, List.mem_cons] at hb
      rcases hb with hb | hb
      · exact hb ▸ hl a (List.mem_cons_self a t)
      · exact ih j (fun c hc => hl c (List.mem_cons_of_mem a hc)) b hb

/-- C9: for every player whose `isAlive` flag is false, `updatePlayer` is a
complete no-op: the player record — position, angle, path, hole state,
active effects and every other field — is returned unchanged, for any
key-state input and any oracle values. -/
theorem claim_C9_dead_noop (controls : ℕ → Option Controls) (piQ : ℚ)
    (cosF sinF : ℚ → ℚ) (now : ℚ) (randStart : Bool) (p : Player)
    (keyStates : String → Bool) (h : p.isAlive = false) :
    updatePlayer controls piQ cosF sinF now randStart p keyStates = p := by
  simp [updatePlayer, h]

theorem claim_C9_dead_noop_witness :
    demoDead.isAlive = false ∧
      updatePlayer (fun _ => none) 0 (fun _ => 0) (fun _ => 0) 0 false demoDead
        (fun _ => false) = demoDead :=
  ⟨rfl, claim_C9_dead_noop _ _ _ _ _ _ _ _ rfl⟩

/-- C3: `checkCollisions` returns false — neither boundary nor trail
collision — whenever the queried player's `isMakingHole` flag is true, or
the INVINCIBLE effect is active (present with a truthy expiry), or the
GHOST_MODE effect is active, for every input state. -/
theorem claim_C3_invincibility (p : Player) (playableWidth canvasHeight : ℚ)
    (allPlayers : List Player)
    (h : p.isMakingHole = true ∨
      effectTruthy p.activeEffects PowerupType.INVINCIBLE = true ∨
      effectTruthy p.activeEffects PowerupType.GHOST_MODE = true) :
    checkCollisions p playableWidth canvasHeight allPlayers = false := by
  unfold checkCollisions
  rcases h with h | h | h <;> simp [h]

theorem claim_C3_invincibility_witness :
    effectTruthy demoInvincible.activeEffects PowerupType.INVINCIBLE = true ∧
      checkCollisions demoInvincible 1000 1000 [demoInvincible] = false :=
  ⟨by with_unfolding_all rfl,
    claim_C3_invincibility demoInvincible 1000 1000 [demoInvincible]
      (Or.inr (Or.inl (by with_unfolding_all rfl)))⟩

/-- C5: resuming from a pause started at `t0` at instant `t1` adds exactly
`t1 - t0` to every player's active (truthy) effect-expiry timestamp, to
every active powerup's `createdAt`, and to the global spawn reference; so
an effect with `d` ms remaining at pause still has `d` ms remaining at
resume. -/
theorem claim_C5_pause_shift :
    (∀ (t0 t1 : ℚ) (players : List Player) (powerups : List Powerup)
        (lastSpawn : ℚ),
        resumeFromPause t0 t1 players powerups lastSpawn =
          (players.map (adjustPlayerForPause (t1 - t0)),
            powerups.map (adjustPowerupForPause (t1 - t0)),
            lastSpawn + (t1 - t0))) ∧
    (∀ (pausedDuration : ℚ) (p : Player) (e : PowerupType) (v : ℚ),
        p.activeEffects e = some v → v ≠ 0 →
        (adjustPlayerForPause pausedDuration p).activeEffects e =
          some (v + pausedDuration)) ∧
    (∀ (pausedDuration : ℚ) (w : Powerup),
        (adjustPowerupForPause pausedDuration w).createdAt =
          w.createdAt + pausedDuration) ∧
    (∀ (t0 t1 : ℚ) (p : Player) (e : PowerupType) (v d : ℚ),
        p.activeEffects e = some v → v ≠ 0 → v - t0 = d →
        ∃ v', (adjustPlayerForPause (t1 - t0) p).activeEffects e = some v' ∧
          v' - t1 = d) := by
  refine ⟨fun _ _ _ _ _ => rfl, ?_, fun _ _ => rfl, ?_⟩
  · intro pd p e v hv hnz
    simp [adjustPlayerForPause, adjustEffectsForPause, hv, hnz]
  · intro t0 t1 p e v d hv hnz hd
    refine ⟨v + (t1 - t0), ?_, ?_⟩
    · simp [adjustPlayerForPause, adjustEffectsForPause, hv, hnz]
    · rw [← hd]; ring

theorem claim_C5_pause_shift_witness :
    demoBoosted.activeEffects PowerupType.SPEED_BOOST = some 25000 ∧
      (25000 : ℚ) - 20000 = 5000 ∧
      ∃ v', (adjustPlayerForPause ((30000 : ℚ) - 20000) demoBoosted).activeEffects
          PowerupType.SPEED_BOOST = some v' ∧ v' - 30000 = 5000 :=
  ⟨by with_unfolding_all rfl, by norm_num,
    claim_C5_pause_shift.2.2.2 20000 30000 demoBoosted PowerupType.SPEED_BOOST
      25000 5000 (by with_unfolding_all rfl) (by norm_num) (by norm_num)⟩

/-- C2: the final ranking at round end is the ids of the players still
alive followed by the elimination order reversed; in particular
elimination order [2, 4, 1] with player 3 surviving ranks [3, 1, 4, 2]. -/
theorem claim_C2_final_ranking :
    (∀ (players : List Player) (elimOrder : List ℕ),
        (roundEndStep players elimOrder).ranking =
          ((players.filter (fun p => p.isAlive)).map (fun p => p.id)) ++
            elimOrder.reverse) ∧
    (roundEndStep demoRoundPlayers [2, 4, 1]).ranking = [3, 1, 4, 2] := by
  exact ⟨fun _ _ => rfl, by with_unfolding_all rfl⟩

/-- C6: one `updatePlayer` step preserves the no-two-consecutive-gap-markers
invariant of a player's path: while a hole is being made a gap marker is
appended only if the last path entry is not already one, so a run of
consecutive hole steps appends at most one gap marker. -/
theorem claim_C6_gap_collapse :
    (∀ (path : List (Option Pt)) (pt : Pt), path.getLast? = some none →
        pushPathEntry path true pt = path) ∧
    (∀ (path : List (Option Pt)) (pt : Pt), path.getLast? ≠ some none →
        pushPathEntry path true pt = path ++ [none]) ∧
    (∀ (controls : ℕ → Option Controls) (piQ : ℚ) (cosF sinF : ℚ → ℚ)
        (now : ℚ) (randStart : Bool) (p : Player) (keyStates : String → Bool),
        noConsecGaps p.path = true →
        noConsecGaps (updatePlayer controls piQ cosF sinF now randStart p
          keyStates).path = true) := by
  refine ⟨?_, ?_, ?_⟩
  · intro path pt h
    have h0 : ¬ path.length = 0 := by
      intro e
      have he : path = [] := List.length_eq_zero.mp e
      subst he; simp at h
    simp [pushPathEntry, h, h0]
  · intro path pt h
    by_cases h0 : path.length = 0
    · simp [pushPathEntry, h0]
    · simp [pushPathEntry, h, h0]
  · intro controls piQ cosF sinF now randStart p ks h
    unfold updatePlayer
    by_cases ha : p.isAlive
    · simp only [ha, if_true]
      exact pushPathEntry_noConsecGaps _ _ _ h
    · simp only [ha, if_false]
      exact h

theorem claim_C6_gap_collapse_witness :
    noConsecGaps demoHoleMaker.path = true ∧
      noConsecGaps (updatePlayer (fun _ => none) 0 (fun _ => 0) (fun _ => 0) 0
        false demoHoleMaker (fun _ => false)).path = true :=
  ⟨by with_unfolding_all rfl,
    claim_C6_gap_collapse.2.2 _ _ _ _ _ _ demoHoleMaker _
      (by with_unfolding_all rfl)⟩

/-- C10: a player's path is never empty: `createPlayer` starts it with
exactly the one-point list `[{x, y}]`, `updatePlayer` keeps it nonempty,
and `applyPowerupEffect` preserves nonemptiness of every player's path
(CLEAR_OWN_TRAIL yields a one-element list, RANDOM_TELEPORT only
overwrites the last entry). -/
theorem claim_C10_path_nonempty :
    (∀ (id : ℕ) (name : String) (x y angle : ℚ) (color : String) (s : ℕ),
        (createPlayer id name x y angle color s).path = [some ⟨x, y⟩]) ∧
    (∀ (controls : ℕ → Option Controls) (piQ : ℚ) (cosF sinF : ℚ → ℚ)
        (now : ℚ) (randStart : Bool) (p : Player) (keyStates : String → Bool),
        p.path ≠ [] →
        (updatePlayer controls piQ cosF sinF now randStart p keyStates).path ≠ []) ∧
    (∀ (piQ now cw ch rx ry : ℚ) (w : Powerup) (idx : ℕ)
        (players : List Player),
        (∀ p ∈ players, p.path ≠ []) →
        ∀ q ∈ applyPowerupEffect piQ now cw ch rx ry w idx players,
          q.path ≠ []) := by
  refine ⟨fun _ _ _ _ _ _ _ => rfl, ?_, ?_⟩
  · intro controls piQ cosF sinF now randStart p ks h
    unfold updatePlayer
    by_cases ha : p.isAlive
    · simp only [ha, if_true]
      exact pushPathEntry_ne_nil _ _ _ h
    · simp only [ha, if_false]
      exact h
  · intro piQ now cw ch rx ry w idx players hall
    unfold applyPowerupEffect
    cases w.type
    case SPEED_BOOST | INVINCIBLE | THIN_TRAIL | REVERSE_CONTROLS
        | GHOST_MODE | THICK_TRAIL =>
      exact modifyAt_forall players idx _ (fun a ha => ha) hall
    case SLOW_OTHERS =>
      cases players.get? idx with
      | none => exact hall
      | some collector =>
        intro q hq
        rcases List.mem_map.mp hq with ⟨a, haMem, hEq⟩
        subst hEq
        by_cases hcond : a.id ≠ collector.id ∧ a.isAlive = true
        · rw [if_pos hcond]; exact hall a haMem
        · rw [if_neg hcond]; exact hall a haMem
    case CLEAR_OWN_TRAIL =>
      exact modifyAt_forall players idx _ (fun a ha => by simp) hall
    case RANDOM_TELEPORT =>
      refine modifyAt_forall players idx _ (fun a ha => ?_) hall
      intro he
      have hlen := congrArg List.length he
      simp [List.length_set] at hlen
      exact ha hlen

theorem claim_C10_path_nonempty_witness :
    (createPlayer 9 (r"Echo") 3 4 0 (r"red") 0).path = [some ⟨3, 4⟩] ∧
      (updatePlayer (fun _ => none) 0 (fun _ => 0) (fun _ => 0) 0 false demoDead
        (fun _ => false)).path ≠ [] ∧
      demoCleared.path ≠ [] :=
  ⟨claim_C10_path_nonempty.1 9 (r"Echo") 3 4 0 (r"red") 0,
    claim_C10_path_nonempty.2.1 (fun _ => none) 0 (fun _ => 0) (fun _ => 0) 0
      false demoDead (fun _ => false) (by simp [demoDead, createPlayer]),
    claim_C10_path_nonempty.2.2 3 0 1000 1000 0 0 demoClearPw 0 [demoBoosted]
      (by
        intro p hp
        rw [List.mem_singleton] at hp
        subst hp
        simp [demoBoosted, createPlayer])
      demoCleared
      (by
        have he : applyPowerupEffect 3 0 1000 1000 0 0 demoClearPw 0
            [demoBoosted] = [demoCleared] := by with_unfolding_all rfl
        rw [he]
        exact List.mem_singleton.mpr rfl)⟩

theorem trailHit_eq_true_iff (p q : Player) :
    trailHit p q = true ↔ ∃ i, i < q.path.length ∧ pointHit p q i = true := by
  unfold trailHit
  rw [List.any_eq_true]
  constructor
  · rintro ⟨i, hi, hh⟩
    exact ⟨i, List.mem_range.mp hi, hh⟩
  · rintro ⟨i, hi, hh⟩
    exact ⟨i, List.mem_range.mpr hi, hh⟩

/-- C7: in the trail test, a player's own path is scanned with its most
recent 20 entries excluded, while every other player's path is scanned in
full (gap markers never hit); consequently a player whose whole path
still fits inside the exclusion window — e.g. one moving straight from
spawn for up to the window's worth of travel — reports no collision
against their own trail. -/
theorem claim_C7_self_exclusion :
    (∀ p q : Player, q.id = p.id →
        (trailHit p q = true ↔
          ∃ i, i + 20 < q.path.length ∧ rawPointHit p q i = true)) ∧
    (∀ p q : Player, q.id ≠ p.id →
        (trailHit p q = true ↔
          ∃ i, i < q.path.length ∧ rawPointHit p q i = true)) ∧
    (∀ p : Player, p.path.length ≤ 20 → trailHit p p = false) := by
  have hself : ∀ p q : Player, q.id = p.id →
      (trailHit p q = true ↔
        ∃ i, i + 20 < q.path.length ∧ rawPointHit p q i = true) := by
    intro p q hid
    rw [trailHit_eq_true_iff]
    constructor
    · rintro ⟨i, hi, hh⟩
      unfold pointHit at hh
      by_cases hc : p.id = q.id ∧ q.path.length ≤ i + 20
      · rw [if_pos hc] at hh
        exact absurd hh (by simp)
      · rw [if_neg hc] at hh
        push_neg at hc
        have hw := hc hid.symm
        exact ⟨i, by omega, hh⟩
    · rintro ⟨i, hi, hh⟩
      refine ⟨i, by omega, ?_⟩
      unfold pointHit
      rw [if_neg (fun hcon => by omega)]
      exact hh
  refine ⟨hself, ?_, ?_⟩
  · intro p q hid
    rw [trailHit_eq_true_iff]
    have hptEq : ∀ i, pointHit p q i = rawPointHit p q i := by
      intro i
      unfold pointHit
      rw [if_neg (fun hcon => hid (hcon.1.symm))]
    constructor
    · rintro ⟨i, hi, hh⟩
      exact ⟨i, hi, (hptEq i) ▸ hh⟩
    · rintro ⟨i, hi, hh⟩
      exact ⟨i, hi, (hptEq i).symm ▸ hh⟩
  · intro p hlen
    cases h : trailHit p p with
    | false => rfl
    | true =>
      rcases (hself p p rfl).mp h with ⟨i, hi, _⟩
      omega

theorem claim_C7_self_exclusion_witness :
    demoBoosted.path.length ≤ 20 ∧ trailHit demoBoosted demoBoosted = false :=
  ⟨by with_unfolding_all decide,
    claim_C7_self_exclusion.2.2 demoBoosted (by with_unfolding_all decide)⟩

theorem le_foldr_max (l : List ℕ) : ∀ x ∈ l, x ≤ l.foldr max 0 := by
  induction l with
  | nil => intro x hx; simp at hx
  | cons a t ih =>
    intro x hx
    rcases List.mem_cons.mp hx with h | h
    · subst h; exact le_max_left _ _
    · exact le_trans (ih x h) (le_max_right _ _)

theorem foldr_max_mem (l : List ℕ) (h : l ≠ []) : l.foldr max 0 ∈ l := by
  induction l with
  | nil => exact absurd rfl h
  | cons a t ih =>
    cases t with
    | nil => simp
    | cons b t2 =>
      have he : (a :: b :: t2).foldr max 0 = max a ((b :: t2).foldr max 0) := rfl
      rcases max_choice a ((b :: t2).foldr max 0) with hm | hm
      · rw [he, hm]; exact List.mem_cons_self _ _
      · rw [he, hm]; exact List.mem_cons_of_mem _ (ih (by simp))

theorem foldr_max_perm {l₁ l₂ : List ℕ} (h : l₁.Perm l₂) :
    l₁.foldr max 0 = l₂.foldr max 0 := by
  induction h with
  | nil => rfl
  | cons x h ih => simp only [List.foldr_cons, ih]
  | swap x y l => simp only [List.foldr_cons]; rw [max_left_comm]
  | trans h1 h2 ih1 ih2 => rw [ih1, ih2]

theorem sortScoresDesc_perm (l : List ℕ) : (sortScoresDesc l).Perm l :=
  List.perm_insertionSort _ l

theorem sortScoresDesc_sorted (l : List ℕ) :
    List.Sorted (· ≥ ·) (sortScoresDesc l) :=
  List.sorted_insertionSort _ l

theorem getD_zero_of_sorted_perm {s l : List ℕ} (hp : s.Perm l)
    (hsort : List.Sorted (· ≥ ·) s) : s.getD 0 0 = l.foldr max 0 := by
  cases s with
  | nil => rw [← hp.nil_eq]; rfl
  | cons a t =>
    have hge : ∀ x ∈ t, a ≥ x := (List.sorted_cons.mp hsort).1
    have ha : a ∈ l := hp.subset (List.mem_cons_self a t)
    have hln : l ≠ [] := by
      intro e; rw [e] at ha; simp at ha
    simp only [List.getD_cons_zero]
    apply le_antisymm
    · exact le_foldr_max l a ha
    · have hmem := foldr_max_mem l hln
      have hin : l.foldr max 0 ∈ a :: t := hp.symm.subset hmem
      rcases List.mem_cons.mp hin with h | h
      · exact le_of_eq h
      · exact hge _ h

theorem getD_one_of_sorted_perm {s l : List ℕ} (hp : s.Perm l)
    (hsort : List.Sorted (· ≥ ·) s) (h2 : 2 ≤ l.length) :
    s.getD 1 0 = (l.erase (l.foldr max 0)).foldr max 0 := by
  cases s with
  | nil =>
    have hle := hp.length_eq
    simp only [List.length_nil] at hle
    omega
  | cons a t =>
    cases t with
    | nil =>
      have hle := hp.length_eq
      simp only [List.length_cons, List.length_nil] at hle
      omega
    | cons b t2 =>
      have hmax : l.foldr max 0 = a := by
        have hga := getD_zero_of_sorted_perm hp hsort
        simpa using hga.symm
      have hErase : (l.erase a).Perm (b :: t2) := by
        have hpe := hp.symm.erase a
        simpa [List.erase_cons_head] using hpe
      rw [hmax, foldr_max_perm hErase]
      have hsort2 : List.Sorted (· ≥ ·) (b :: t2) := (List.sorted_cons.mp hsort).2
      have hgeb : ∀ x ∈ t2, b ≥ x := (List.sorted_cons.mp hsort2).1
      have hfb : (b :: t2).foldr max 0 = b := by
        apply le_antisymm
        · have hmem := foldr_max_mem (b :: t2) (by simp)
          rcases List.mem_cons.mp hmem with h | h
          · exact le_of_eq h
          · exact hgeb _ h
        · exact le_foldr_max _ b (List.mem_cons_self _ _)
      rw [hfb]
      rfl

theorem highestScore_eq_maxScore (l : List ℕ) : highestScore l = maxScore l :=
  getD_zero_of_sorted_perm (sortScoresDesc_perm l) (sortScoresDesc_sorted l)

theorem secondHighestScore_eq_secondMax (l : List ℕ) (h2 : 2 ≤ l.length) :
    secondHighestScore l = secondMaxScore l :=
  getD_one_of_sorted_perm (sortScoresDesc_perm l) (sortScoresDesc_sorted l) h2

theorem winCheck_cases (vals : List ℕ) :
    winCheck vals = GameState.SessionOver ∨ winCheck vals = GameState.GameOver := by
  unfold winCheck
  split
  · exact Or.inl rfl
  · exact Or.inr rfl

theorem winCheck_sessionOver_iff (vals : List ℕ) (h2 : 2 ≤ vals.length) :
    winCheck vals = GameState.SessionOver ↔
      30 ≤ maxScore vals ∧
        (vals.length < 2 ∨ secondMaxScore vals + 2 ≤ maxScore vals) := by
  have hlen : (sortScoresDesc vals).length = vals.length :=
    (sortScoresDesc_perm vals).length_eq
  have hcond : (30 ≤ highestScore vals ∧
        ((sortScoresDesc vals).length < 2 ∨
          secondHighestScore vals + 2 ≤ highestScore vals)) ↔
      (30 ≤ maxScore vals ∧
        (vals.length < 2 ∨ secondMaxScore vals + 2 ≤ maxScore vals)) := by
    rw [highestScore_eq_maxScore, secondHighestScore_eq_secondMax vals h2, hlen]
  unfold winCheck
  by_cases hc : 30 ≤ highestScore vals ∧
      ((sortScoresDesc vals).length < 2 ∨
        secondHighestScore vals + 2 ≤ highestScore vals)
  · rw [if_pos hc]
    exact iff_of_true rfl (hcond.mp hc)
  · rw [if_neg hc]
    exact iff_of_false (by decide) (fun hr => hc (hcond.mpr hr))

theorem addScoreToFirst_ids (pid pts : ℕ) (l : List Player) :
    (addScoreToFirst pid pts l).map (fun p => p.id) = l.map (fun p => p.id) := by
  induction l with
  | nil => rfl
  | cons a t ih =>
    unfold addScoreToFirst
    by_cases h : a.id = pid
    · rw [if_pos h]; simp
    · rw [if_neg h]; simp [ih]

theorem foldl_award_ids (prs : List (ℕ × ℕ)) :
    ∀ players : List Player,
      ((prs.foldl (fun acc pr => addScoreToFirst pr.2 (pointsFor pr.1) acc)
          players).map (fun p => p.id)) = players.map (fun p => p.id) := by
  induction prs with
  | nil => intro players; rfl
  | cons a t ih =>
    intro players
    rw [List.foldl_cons, ih, addScoreToFirst_ids]

theorem awardPoints_ids (players : List Player) (ranking : List ℕ) :
    (awardPoints players ranking).map (fun p => p.id) =
      players.map (fun p => p.id) :=
  foldl_award_ids ranking.enum players

theorem awardPoints_length (players : List Player) (ranking : List ℕ) :
    (awardPoints players ranking).length = players.length := by
  have h := congrArg List.length (awardPoints_ids players ranking)
  simpa using h

/-- C1: at round end the session terminates (state `SessionOver`) iff the
highest cumulative score is at least 30 and (fewer than two scores exist
or it beats the second-highest by at least 2); a margin of exactly 2 ends
the session ([30, 28]), margins of 1 do not ([30, 29], [31, 30]), a lone
30 does ([30]); otherwise the state is the round-over state `GameOver`
with the score snapshot preserved. -/
theorem claim_C1_win_condition :
    (∀ (players : List Player) (elimOrder : List ℕ) (r : RoundEndResult),
        roundEndCheck players elimOrder = some r →
        ((r.state = GameState.SessionOver ↔
            30 ≤ maxScore (r.lastScores.map Prod.snd) ∧
              ((r.lastScores.map Prod.snd).length < 2 ∨
                secondMaxScore (r.lastScores.map Prod.snd) + 2 ≤
                  maxScore (r.lastScores.map Prod.snd))) ∧
          (r.state ≠ GameState.SessionOver → r.state = GameState.GameOver) ∧
          r.lastScores = r.players.map (fun p => (p.id, p.score)))) ∧
    winCheck [30, 28] = GameState.SessionOver ∧
    winCheck [30, 29] = GameState.GameOver ∧
    winCheck [31, 30] = GameState.GameOver ∧
    winCheck [30] = GameState.SessionOver := by
  refine ⟨?_, by decide, by decide, by decide, by decide⟩
  intro players elim r hr
  unfold roundEndCheck at hr
  by_cases hg : (players.filter (fun p => p.isAlive)).length ≤ 1 ∧
      1 < players.length
  · rw [if_pos hg] at hr
    injection hr with hr
    subst hr
    refine ⟨?_, ?_, rfl⟩
    · refine winCheck_sessionOver_iff _ ?_
      rw [List.length_map, List.length_map, awardPoints_length]
      omega
    · intro hne
      rcases winCheck_cases
          ((roundEndStep players elim).lastScores.map Prod.snd) with h | h
      · exact absurd h hne
      · exact h
  · rw [if_neg hg] at hr
    exact absurd hr (by simp)

theorem claim_C1_win_condition_witness :
    ((roundEndStep demoRoundPlayers [2, 4, 1]).state = GameState.SessionOver ↔
        30 ≤ maxScore ((roundEndStep demoRoundPlayers [2, 4, 1]).lastScores.map
            Prod.snd) ∧
          (((roundEndStep demoRoundPlayers [2, 4, 1]).lastScores.map
              Prod.snd).length < 2 ∨
            secondMaxScore ((roundEndStep demoRoundPlayers
                [2, 4, 1]).lastScores.map Prod.snd) + 2 ≤
              maxScore ((roundEndStep demoRoundPlayers
                [2, 4, 1]).lastScores.map Prod.snd))) ∧
      ((roundEndStep demoRoundPlayers [2, 4, 1]).state ≠
          GameState.SessionOver →
        (roundEndStep demoRoundPlayers [2, 4, 1]).state = GameState.GameOver) ∧
      (roundEndStep demoRoundPlayers [2, 4, 1]).lastScores =
        (roundEndStep demoRoundPlayers [2, 4, 1]).players.map
          (fun p => (p.id, p.score)) :=
  claim_C1_win_condition.1 demoRoundPlayers [2, 4, 1]
    (roundEndStep demoRoundPlayers [2, 4, 1]) (by with_unfolding_all rfl)

theorem addScoreToFirst_total (pid pts : ℕ) (l : List Player)
    (h : pid ∈ l.map (fun p => p.id)) :
    totalScore (addScoreToFirst pid pts l) = totalScore l + pts := by
  induction l with
  | nil => simp at h
  | cons a t ih =>
    unfold addScoreToFirst
    by_cases ha : a.id = pid
    · rw [if_pos ha]
      simp only [totalScore, List.map_cons, List.sum_cons]
      omega
    · rw [if_neg ha]
      have h2 : pid ∈ t.map (fun p => p.id) := by
        simp only [List.map_cons, List.mem_cons] at h
        rcases h with h | h
        · exact absurd h.symm ha
        · exact h
      have h3 := ih h2
      simp only [totalScore, List.map_cons, List.sum_cons] at h3 ⊢
      omega

theorem foldl_award_total (prs : List (ℕ × ℕ)) :
    ∀ players : List Player,
      (∀ pr ∈ prs, pr.2 ∈ players.map (fun p => p.id)) →
      totalScore (prs.foldl
          (fun acc pr => addScoreToFirst pr.2 (pointsFor pr.1) acc) players) =
        totalScore players + (prs.map (fun pr => pointsFor pr.1)).sum := by
  induction prs with
  | nil => intro players _; simp
  | cons a t ih =>
    intro players h
    simp only [List.foldl_cons, List.map_cons, List.sum_cons]
    have hmem := h a (List.mem_cons_self a t)
    have hrest : ∀ pr ∈ t,
        pr.2 ∈ (addScoreToFirst a.2 (pointsFor a.1) players).map
          (fun p => p.id) := by
      intro pr hpr
      rw [addScoreToFirst_ids]
      exact h pr (List.mem_cons_of_mem a hpr)
    rw [ih _ hrest, addScoreToFirst_total _ _ _ hmem]
    omega

theorem snd_mem_of_mem_enum {α : Type} {x : ℕ × α} {l : List α}
    (h : x ∈ l.enum) : x.2 ∈ l := by
  have hm : x.2 ∈ l.enum.map Prod.snd := List.mem_map_of_mem Prod.snd h
  rwa [List.enum_map_snd] at hm

theorem awardPoints_total (players : List Player) (ranking : List ℕ)
    (h : ∀ pid ∈ ranking, pid ∈ players.map (fun p => p.id)) :
    totalScore (awardPoints players ranking) =
      totalScore players + ((List.range ranking.length).map pointsFor).sum := by
  unfold awardPoints
  rw [foldl_award_total ranking.enum players
      (fun pr hpr => h pr.2 (snd_mem_of_mem_enum hpr))]
  congr 1
  rw [← List.enum_map_fst ranking, List.map_map]
  rfl

/-- C4: points are awarded purely by ranking position — 3, 2, 1 for
positions 0, 1, 2 and 0 for every later position, with no failure on
rankings longer than the points table — each added to that player's
cumulative score, so the total awarded over a ranking of N players equals
the sum of the first N entries of [3, 2, 1, 0] when N ≤ 4. -/
theorem claim_C4_rank_points :
    pointsFor 0 = 3 ∧ pointsFor 1 = 2 ∧ pointsFor 2 = 1 ∧
    (∀ i, 3 ≤ i → pointsFor i = 0) ∧
    (∀ (players : List Player) (elimOrder : List ℕ),
        (roundEndStep players elimOrder).players =
          awardPoints players (roundEndStep players elimOrder).ranking) ∧
    (∀ (players : List Player) (ranking : List ℕ),
        (∀ pid ∈ ranking, pid ∈ players.map (fun p => p.id)) →
        totalScore (awardPoints players ranking) =
          totalScore players + ((List.range ranking.length).map pointsFor).sum) ∧
    (∀ N, N ≤ 4 → ((List.range N).map pointsFor).sum =
        (([3, 2, 1, 0] : List ℕ).take N).sum) := by
  refine ⟨rfl, rfl, rfl, ?_, fun _ _ => rfl, awardPoints_total, ?_⟩
  · intro i h
    match i, h with
    | 3, _ => rfl
    | (n + 4), _ => rfl
  · intro N h
    interval_cases N <;> rfl

theorem claim_C4_rank_points_witness :
    pointsFor 7 = 0 ∧
      (∀ pid ∈ ([3, 1, 4, 2] : List ℕ),
          pid ∈ demoRoundPlayers.map (fun p => p.id)) ∧
      totalScore (awardPoints demoRoundPlayers [3, 1, 4, 2]) =
        totalScore demoRoundPlayers +
          ((List.range ([3, 1, 4, 2] : List ℕ).length).map pointsFor).sum ∧
      ((List.range 3).map pointsFor).sum = (([3, 2, 1, 0] : List ℕ).take 3).sum :=
  ⟨claim_C4_rank_points.2.2.2.1 7 (by decide),
    by
      intro pid hpid
      have hids : demoRoundPlayers.map (fun p => p.id) = [1, 2, 3, 4] := by
        with_unfolding_all rfl
      rw [hids]
      fin_cases hpid <;> decide,
    claim_C4_rank_points.2.2.2.2.2.1 demoRoundPlayers [3, 1, 4, 2]
      (by
        intro pid hpid
        have hids : demoRoundPlayers.map (fun p => p.id) = [1, 2, 3, 4] := by
          with_unfolding_all rfl
        rw [hids]
        fin_cases hpid <;> decide),
    claim_C4_rank_points.2.2.2.2.2.2 3 (by decide)⟩

theorem collectStep_loginv (cfg : StepCfg) (pIdx : ℕ) (st : LoopState)
    (wpr : ℕ × Powerup) (h : LogInv st) : LogInv (collectStep cfg pIdx st wpr) := by
  unfold collectStep
  by_cases hcol : st.collected.contains wpr.2.id = true
  · rw [if_pos hcol]; exact h
  · rw [if_neg hcol]
    have hnotin : wpr.2.id ∉ st.collected := fun hm => hcol (List.elem_iff.mpr hm)
    cases hg : st.players.get? pIdx with
    | none => exact h
    | some pl =>
      dsimp only
      split
      · refine ⟨?_, ?_⟩
        · show ((st.log ++ [(pl.id, wpr.2.id)]).map Prod.snd).Nodup
          rw [List.map_append]
          refine List.Nodup.append h.1 (by simp) ?_
          intro a ha hb
          simp only [List.map_cons, List.map_nil, List.mem_singleton] at hb
          subst hb
          exact hnotin (h.2 _ ha)
        · show ∀ x ∈ (st.log ++ [(pl.id, wpr.2.id)]).map Prod.snd,
            x ∈ wpr.2.id :: st.collected
          intro x hx
          rw [List.map_append] at hx
          rcases List.mem_append.mp hx with hx | hx
          · exact List.mem_cons_of_mem _ (h.2 x hx)
          · simp only [List.map_cons, List.map_nil, List.mem_singleton] at hx
            subst hx
            exact List.mem_cons_self _ _
      · exact h

theorem foldl_collectStep_loginv (cfg : StepCfg) (pIdx : ℕ)
    (prs : List (ℕ × Powerup)) :
    ∀ st : LoopState, LogInv st →
      LogInv (prs.foldl (collectStep cfg pIdx) st) := by
  induction prs with
  | nil => intro st h; exact h
  | cons a t ih =>
    intro st h
    rw [List.foldl_cons]
    exact ih _ (collectStep_loginv cfg pIdx st a h)

theorem collectLoop_loginv (cfg : StepCfg) (pIdx : ℕ)
    (powerups : List Powerup) (st : LoopState) (h : LogInv st) :
    LogInv (collectLoop cfg pIdx powerups st) :=
  foldl_collectStep_loginv cfg pIdx powerups.enum st h

theorem playerStep_loginv (cfg : StepCfg) (powerups : List Powerup)
    (st : LoopState) (pIdx : ℕ) (h : LogInv st) :
    LogInv (playerStep cfg powerups st pIdx) := by
  unfold playerStep
  cases hg : st.players.get? pIdx with
  | none => exact h
  | some p0 =>
    dsimp only
    split
    · split
      · exact h
      · split
        · exact collectLoop_loginv _ _ _ _ h
        · exact h
    · exact h

theorem foldl_playerStep_loginv (cfg : StepCfg) (powerups : List Powerup)
    (idxs : List ℕ) :
    ∀ st : LoopState, LogInv st →
      LogInv (idxs.foldl (playerStep cfg powerups) st) := by
  induction idxs with
  | nil => intro st h; exact h
  | cons i t ih =>
    intro st h
    rw [List.foldl_cons]
    exact ih _ (playerStep_loginv cfg powerups st i h)

theorem runUpdateLoop_log_nodup (cfg : StepCfg) (players0 : List Player)
    (elim0 : List ℕ) (powerups : List Powerup) :
    ((runUpdateLoop cfg players0 elim0 powerups).1.log.map Prod.snd).Nodup :=
  (foldl_playerStep_loginv cfg powerups (List.range players0.length)
    { players := players0, elim := elim0, collected := [], log := [] }
    ⟨List.nodup_nil, by intro x hx; simp at hx⟩).1

theorem runUpdateLoop_removes (cfg : StepCfg) (players0 : List Player)
    (elim0 : List ℕ) (powerups : List Powerup) (w : Powerup)
    (_hw : w ∈ powerups)
    (hc : (runUpdateLoop cfg players0 elim0 powerups).1.collected.contains
      w.id = true) :
    w ∉ (runUpdateLoop cfg players0 elim0 powerups).2 := by
  intro hmem
  have hf := (List.mem_filter.mp hmem).2
  rw [Bool.not_eq_true'] at hf
  have hin : w.id ∈ (runUpdateLoop cfg players0 elim0 powerups).1.collected :=
    List.elem_iff.mp hc
  have hcontra : ((runUpdateLoop cfg players0 elim0
      powerups).1.collected.contains w.id) = false := hf
  rw [hcontra] at hc
  exact Bool.false_ne_true hc

/-- C8: within one simulation step every powerup is collected at most
once: the per-step collected-id set makes the sequence of effect
applications hit pairwise-distinct powerup ids, a collected powerup is
removed from the active list, and in the concrete frame where two living
players' heads overlap the same powerup, the effect is applied exactly
once — by the first player processed — and the powerup removed once. -/
theorem claim_C8_single_collection :
    (∀ (cfg : StepCfg) (players0 : List Player) (elim0 : List ℕ)
        (powerups : List Powerup),
        ((runUpdateLoop cfg players0 elim0 powerups).1.log.map Prod.snd).Nodup) ∧
    (∀ (cfg : StepCfg) (players0 : List Player) (elim0 : List ℕ)
        (powerups : List Powerup) (w : Powerup), w ∈ powerups →
        (runUpdateLoop cfg players0 elim0 powerups).1.collected.contains
          w.id = true →
        w ∉ (runUpdateLoop cfg players0 elim0 powerups).2) ∧
    (runUpdateLoop demoCfg [demoP1, demoP2] [] [demoContested]).1.log =
      [(1, 5)] ∧
    (runUpdateLoop demoCfg [demoP1, demoP2] [] [demoContested]).2 = [] :=
  ⟨runUpdateLoop_log_nodup, runUpdateLoop_removes,
    by with_unfolding_all rfl, by with_unfolding_all rfl⟩

theorem claim_C8_single_collection_witness :
    demoContested ∉ (runUpdateLoop demoCfg [demoP1, demoP2] [] [demoContested]).2 :=
  claim_C8_single_collection.2.1 demoCfg [demoP1, demoP2] [] [demoContested]
    demoContested (List.mem_singleton.mpr rfl) (by with_unfolding_all rfl)

end CurveChaos
